import Mathlib

/-!
Shallow embedding of the `azdo-cli` parameter-resolution engine and run
completion monitor (sources: `src/cli.ts`, the Azure DevOps service module,
`src/config-file.ts`).  JavaScript strings are modelled as `List Char`,
JavaScript numbers as decimal rationals `n / 10 ^ e` (`none` standing for
`NaN` where a parse can fail), and JavaScript records as association lists
with JS-object update semantics (update in place, append new keys).
-/

set_option autoImplicit false

namespace AzdoCli

/-- JavaScript strings, modelled as lists of characters. -/
abbrev Str := List Char

/-- The whitespace characters recognised by JS `trim` / `Number`. -/
def isJsSpace (c : Char) : Bool :=
  c = ' ' || c = '\t' || c = '\n' || c = '\r' || c = '\x0b' || c = '\x0c'

/-- JS `String.prototype.trim`: strip leading and trailing whitespace. -/
def jsTrim (s : Str) : Str :=
  ((s.dropWhile isJsSpace).reverse.dropWhile isJsSpace).reverse

/-- ASCII lower-casing of one character, as JS `toLowerCase` acts on ASCII. -/
def jsToLowerChar (c : Char) : Char :=
  if 'A' ≤ c ∧ c ≤ 'Z' then Char.ofNat (c.toNat + 32) else c

/-- ASCII lower-casing of a string (JS `String.prototype.toLowerCase`). -/
def jsToLower (s : Str) : Str := s.map jsToLowerChar

/-- `strStartsWith s p` is JS `s.startsWith(p)`. -/
def strStartsWith : Str → Str → Bool
  | _, [] => true
  | [], _ :: _ => false
  | a :: s, b :: p => a = b && strStartsWith s p

/-- `containsSub hay needle` is JS `hay.includes(needle)`. -/
def containsSub : Str → Str → Bool
  | [], needle => needle.isEmpty
  | a :: s, needle => strStartsWith (a :: s) needle || containsSub s needle

/-- JS `String.prototype.indexOf` for a single character, as an optional index. -/
def jsIndexOf (c : Char) : Str → Option Nat
  | [] => none
  | a :: s => if a = c then some 0 else (jsIndexOf c s).map (· + 1)

/-- Decimal digit test (the regexp class `\d`). -/
def isDigit (c : Char) : Bool := '0' ≤ c && c ≤ '9'

/-- Value of a string of decimal digits. -/
def digitsToNat (s : Str) : Nat :=
  s.foldl (fun n c => 10 * n + (c.toNat - '0'.toNat)) 0

/-- `10 ^ e` as an integer, the denominator of a decimal rational. -/
def pow10 (e : Nat) : Int := ((10 : Nat) ^ e : Nat)

/-- JS numbers as this CLI meets them (JSON numbers, `Number()`-parsed CLI
text, YAML scalars): the decimal rational `n / 10 ^ e`. -/
structure JsNum where
  n : Int
  e : Nat
deriving DecidableEq

/-- A JS integer literal. -/
def jsInt (i : Int) : JsNum := ⟨i, 0⟩

/-- Semantic equality of two decimal rationals (JS `===` on numbers). -/
def numEq (a b : JsNum) : Bool := a.n * pow10 b.e = b.n * pow10 a.e

/-- Whether a JS number is a (mathematical) integer. -/
def JsNum.isInt (a : JsNum) : Bool := a.n % pow10 a.e = 0

/-- Unsigned decimal literal: `digits`, `digits.digits` or `.digits`. -/
def parseUnsignedDec (s : Str) : Option JsNum :=
  match jsIndexOf '.' s with
  | none => if s ≠ [] ∧ s.all isDigit then some (jsInt (digitsToNat s)) else none
  | some i =>
    let intPart := s.take i
    let fracPart := s.drop (i + 1)
    if intPart.all isDigit ∧ fracPart.all isDigit ∧ '.' ∉ fracPart ∧
        (intPart ≠ [] ∨ fracPart ≠ []) then
      some ⟨digitsToNat intPart * pow10 fracPart.length + digitsToNat fracPart,
        fracPart.length⟩
    else none

/-- Signed decimal literal. -/
def parseSignedDec : Str → Option JsNum
  | '-' :: rest => (parseUnsignedDec rest).map (fun q => ⟨-q.n, q.e⟩)
  | '+' :: rest => parseUnsignedDec rest
  | s => parseUnsignedDec s

/-- Models the JS `Number(string)` conversion on the decimal literals this CLI
deals with: surrounding whitespace is ignored, the empty (or all-blank) string
converts to `0`, and a signed decimal literal converts to its value; every
other string converts to `NaN`, modelled as `none`.  (Exotic JS forms such as
hex or exponent literals are outside the model.) -/
def jsNumber (s : Str) : Option JsNum :=
  let t := jsTrim s
  if t = [] then some (jsInt 0) else parseSignedDec t

/-- Dynamically typed JS values flowing through the CLI (YAML scalars and
collections, coerced CLI flag values). -/
inductive JsValue where
  | null
  | bool (b : Bool)
  | num (q : JsNum)
  | str (s : Str)
  | arr (elems : List JsValue)
  | obj (fields : List (Str × JsValue))

instance : Inhabited JsValue := ⟨JsValue.null⟩

/-- A JS record of parameters: an association list with unique keys in
insertion order. -/
abbrev PMap := List (Str × JsValue)

/-- JS object property assignment `m[k] = v`: overwrite in place if the key
exists, otherwise append. -/
def setkv : PMap → Str → JsValue → PMap
  | [], k, v => [(k, v)]
  | (k', v') :: rest, k, v =>
    if k' = k then (k', v) :: rest else (k', v') :: setkv rest k v

/-- JS property read `m[k]`, `undefined` modelled as `none`. -/
def pmLookup : PMap → Str → Option JsValue
  | [], _ => none
  | (k', v') :: rest, k => if k' = k then some v' else pmLookup rest k

/-- The keys of a record, in order. -/
def pmKeys (m : PMap) : List Str := m.map (·.1)

/-- JS object spread `{...a, ...b}`. -/
def spreadMerge (a b : PMap) : PMap :=
  b.foldl (fun m kv => setkv m kv.1 kv.2) a

/-- The merged parameter record built by the `build` command action:
`{ ...parameters, ...overrideParams, ...flagParams }` (`src/cli.ts`,
lines 844-848). -/
def mergedParams (parameters overrideParams flagParams : PMap) : PMap :=
  spreadMerge (spreadMerge parameters overrideParams) flagParams

/-- Left-biased choice on options (the value a JS `??`-style fallback chain
produces). -/
def firstSome {α : Type} : Option α → Option α → Option α
  | some v, _ => some v
  | none, o => o

/-- `parseParamValue` (`src/cli.ts`, lines 136-143): trim, then coerce the
literals `true`/`false` to booleans, a numeric-parseable non-empty string to a
number, anything else to the trimmed text. -/
def parseParamValue (raw : Str) : JsValue :=
  let trimmed := jsTrim raw
  if trimmed = "true".data then .bool true
  else if trimmed = "false".data then .bool false
  else
    match jsNumber trimmed with
    | some n => if trimmed = [] then .str trimmed else .num n
    | none => .str trimmed

/-- Loop body of `parseParams` (`src/cli.ts`, lines 145-158), with the record
built so far: entries without `=` are skipped, the key is the trimmed text
before the first `=` (skipped when empty), the value is the coerced text after
it. -/
def parseParamsGo : List Str → PMap → PMap
  | [], params => params
  | entry :: rest, params =>
    match jsIndexOf '=' entry with
    | none => parseParamsGo rest params
    | some idx =>
      let key := jsTrim (entry.take idx)
      let value := entry.drop (idx + 1)
      if key = [] then parseParamsGo rest params
      else parseParamsGo rest (setkv params key (parseParamValue value))

/-- `parseParams`: fold the repeatable `--param k=v` entries into a record. -/
def parseParams (paramEntries : List Str) : PMap :=
  parseParamsGo paramEntries []

/-- The regexp test `/^-\d/.test(next)`. -/
def startsMinusDigit : Str → Bool
  | '-' :: c :: _ => isDigit c
  | _ => false

/-- One iteration of the `parseUnknownParamFlags` loop (`src/cli.ts`, lines
293-324) on the current token `arg` with lookahead `next?` (`args[i + 1]`):
yields the record update this token performs, if any, and whether the
lookahead token was consumed as this flag's value (the loop's `i += 1`).
Empty tokens and `--` are skipped; `--no-key` sets `key ↦ false`;
`--key=value` sets `key ↦ coerced value`; a bare `--key` consumes the
following token as its value when that token is non-empty and either does not
start with `-` or starts with `-` followed by a digit, otherwise sets
`key ↦ true`; tokens not starting with `--` are ignored. -/
def pufStep (arg : Str) (next? : Option Str) : Option (Str × JsValue) × Bool :=
  if arg = [] then (none, false)
  else if arg = "--".data then (none, false)
  else if strStartsWith arg "--no-".data then
    let key := arg.drop 5
    (if key = [] then none else some (key, .bool false), false)
  else if strStartsWith arg "--".data then
    match jsIndexOf '=' arg with
    | some eq =>
      let key := (arg.take eq).drop 2
      let value := arg.drop (eq + 1)
      (if key = [] then none else some (key, parseParamValue value), false)
    | none =>
      let key := arg.drop 2
      if key = [] then (none, false)
      else
        match next? with
        | some next =>
          if next ≠ [] ∧ (strStartsWith next "-".data = false ∨ startsMinusDigit next) then
            (some (key, parseParamValue next), true)
          else (some (key, .bool true), false)
        | none => (some (key, .bool true), false)
  else (none, false)

/-- Apply one optional record update. -/
def applyUpd (params : PMap) : Option (Str × JsValue) → PMap
  | some (k, v) => setkv params k v
  | none => params

/-- The `parseUnknownParamFlags` loop, with the record built so far. -/
def pufGo : List Str → PMap → PMap
  | [], params => params
  | [arg], params => applyUpd params (pufStep arg none).1
  | arg :: next :: rest, params =>
    match pufStep arg (some next) with
    | (upd, true) => pufGo rest (applyUpd params upd)
    | (upd, false) => pufGo (next :: rest) (applyUpd params upd)

/-- `parseUnknownParamFlags`: the ad-hoc `--flag` parameters collected from a
command's unrecognized arguments. -/
def parseUnknownParamFlags (args : List Str) : PMap :=
  pufGo args []

/-- A normalized pipeline parameter specification (`PipelineParamSpec` in
`src/cli.ts`): `default`/`values` are absent (`undefined`) when `none`. -/
structure PipelineParamSpec where
  name : Str
  type : Str
  default : Option JsValue := none
  values : Option (List JsValue) := none

/-- Property read `obj[key]` on a JS value: `undefined` on anything that is
not an object with that field. -/
def getField (v : JsValue) (key : Str) : Option JsValue :=
  match v with
  | .obj fields => pmLookup fields key
  | _ => none

/-- JS truthiness of a possibly-`undefined` value. -/
def jsTruthy : Option JsValue → Bool
  | none => false
  | some .null => false
  | some (.bool b) => b
  | some (.num q) => q.n ≠ 0
  | some (.str s) => s ≠ []
  | some (.arr _) => true
  | some (.obj _) => true

/-- `inferParamType` (`src/cli.ts`, lines 432-436): `"string"` for
`null`/`undefined`, `"array"` for arrays, else the JS `typeof` of the value. -/
def inferParamType : Option JsValue → Str
  | none => "string".data
  | some .null => "string".data
  | some (.arr _) => "array".data
  | some (.bool _) => "boolean".data
  | some (.num _) => "number".data
  | some (.str _) => "string".data
  | some (.obj _) => "object".data

/-- `normalizeParamSpec` (`src/cli.ts`, lines 438-452): a bare string becomes
a string-typed spec; an object with a string `name` keeps its `type` when that
is a string, else infers it from `default`; arrays and other values yield
`none` (an array's `name` property is `undefined`). -/
def normalizeParamSpec (param : JsValue) : Option PipelineParamSpec :=
  match param with
  | .str s => some ⟨s, "string".data, none, none⟩
  | .obj fields =>
    match pmLookup fields "name".data with
    | some (.str n) =>
      let type :=
        match pmLookup fields "type".data with
        | some (.str t) => t
        | _ => inferParamType (pmLookup fields "default".data)
      let values :=
        match pmLookup fields "values".data with
        | some (.arr vs) => some vs
        | _ => none
      some ⟨n, type, pmLookup fields "default".data, values⟩
    | _ => none
  | _ => none

/-- The extraction logic of `extractParamsFromYaml` (`src/cli.ts`, lines
454-473) applied to the already-parsed document (`YAML.parse` is the external
YAML parser; `none` stands for a document parsed to `null`/`undefined`).  A
falsy `parameters` member yields `[]`; a sequence is normalized element-wise
dropping failures; a mapping becomes one inferred spec per key; any other
shape yields `[]`. -/
def extractParamsFromDoc (doc : Option JsValue) : List PipelineParamSpec :=
  let params := doc.bind (fun d => getField d "parameters".data)
  if jsTruthy params then
    match params with
    | some (.arr ps) => ps.filterMap normalizeParamSpec
    | some (.obj fields) =>
      fields.map (fun nv => ⟨nv.1, inferParamType (some nv.2), some nv.2, none⟩)
    | _ => []
  else []

/-- `extractParamsFromYaml` itself first runs the external YAML parser on the
text, which may throw on malformed input; the parser's behaviour is passed in
as `parseDoc`. -/
def extractParamsFromYamlE (parseDoc : Str → Except Str (Option JsValue))
    (yamlText : Str) : Except Str (List PipelineParamSpec) :=
  (parseDoc yamlText).map extractParamsFromDoc

/-- One iteration of the `defaultsFromSpecs` loop: a spec with a defined
`default` contributes `name ↦ default`. -/
def defaultsStep (params : PMap) (spec : PipelineParamSpec) : PMap :=
  match spec.default with
  | some v => setkv params spec.name v
  | none => params

/-- `defaultsFromSpecs` (`src/cli.ts`, lines 328-336): every spec with a
defined `default` contributes `name ↦ default`. -/
def defaultsFromSpecs (specs : List PipelineParamSpec) : PMap :=
  specs.foldl defaultsStep []

/-- The last path segment of a relative path (Node `basename` before suffix
stripping). -/
def afterLastSlash (p : Str) : Str :=
  (p.reverse.takeWhile (fun c => c ≠ '/')).reverse

/-- Node `path.extname` restricted to a single segment: the suffix from the
last `.`, empty when there is no dot or the only dot leads the name. -/
def extOf (base : Str) : Str :=
  match jsIndexOf '.' base.reverse with
  | none => []
  | some j =>
    let i := base.length - 1 - j
    if i = 0 then [] else base.drop i

/-- Node `basename(filePath, extname(filePath))`: the file's base name with
its extension stripped. -/
def basenameNoExt (p : Str) : Str :=
  let base := afterLastSlash p
  base.take (base.length - (extOf base).length)

/-- `normalizeForMatch` (`src/cli.ts`, lines 213-216): empty for a missing
string, else lower-cased with every character outside `a-z0-9` removed. -/
def normalizeForMatch : Option Str → Str
  | none => []
  | some v => (jsToLower v).filter (fun c => ('a' ≤ c && c ≤ 'z') || isDigit c)

/-- `scoreYamlCandidate` (`src/cli.ts`, lines 218-237): fixed weights for
independent containment signals on normalized strings. -/
def scoreYamlCandidate (filePath : Str) (pipelineKey pipelineName : Option Str) :
    Nat :=
  let base := jsToLower (basenameNoExt filePath)
  let baseNorm := normalizeForMatch (some base)
  let pathNorm := normalizeForMatch (some filePath)
  let keyNorm := normalizeForMatch pipelineKey
  let nameNorm := normalizeForMatch pipelineName
  (if keyNorm ≠ [] ∧ containsSub baseNorm keyNorm then 8 else 0) +
  (if nameNorm ≠ [] ∧ containsSub baseNorm nameNorm then 6 else 0) +
  (if keyNorm ≠ [] ∧ containsSub pathNorm keyNorm then 4 else 0) +
  (if nameNorm ≠ [] ∧ containsSub pathNorm nameNorm then 3 else 0) +
  (if containsSub base "azure-pipelines".data then 2 else 0) +
  (if containsSub pathNorm "pipeline".data then 1 else 0)

/-- The scoring stage of `selectLocalYamlFile` (`src/cli.ts`, lines 248-254):
score every enumerated candidate and discard those scoring `0`. -/
def scoredCandidates (files : List Str) (pipelineKey pipelineName : Option Str) :
    List (Str × Nat) :=
  (files.map (fun f => (f, scoreYamlCandidate f pipelineKey pipelineName))).filter
    (fun item => 0 < item.2)

/-- A catalog entry from `azdo.config.json` (`PipelineEntry` in
`src/config-file.ts`); JSON numbers are never `NaN`, so
`normalizePipelineEntry` keeps every well-typed entry unchanged. -/
structure PipelineEntry where
  id : JsNum
  name : Option Str := none
  branch : Option Str := none
  path : Option Str := none

/-- One keyed catalog entry, as produced by `listConfigPipelines`. -/
structure CatalogEntry where
  key : Str
  entry : PipelineEntry

/-- `PipelineSelection` (`src/cli.ts`, lines 338-344). -/
structure PipelineSelection where
  key : Option Str := none
  id : JsNum
  name : Option Str := none
  branch : Option Str := none
  path : Option Str := none

/-- The identifier-driven part of `resolvePipelineSelection` (`src/cli.ts`,
lines 378-401), taken when a non-empty `pipelineArg` is supplied: a numeric
identifier always yields a selection with that number as `id`, decorated from
a catalog entry with matching `id` when one exists; otherwise the identifier
must be an exact catalog key, and a miss is a fatal error. -/
def resolvePipelineSelectionArg (entries : List CatalogEntry)
    (pipelineArg : Str) : Except Str PipelineSelection :=
  match jsNumber pipelineArg with
  | some asNumber =>
    match entries.find? (fun e => numEq e.entry.id asNumber) with
    | some m =>
      .ok ⟨some m.key, asNumber,
        some ((m.entry.name).getD m.key), m.entry.branch, m.entry.path⟩
    | none => .ok ⟨none, asNumber, none, none, none⟩
  | none =>
    match entries.find? (fun e => decide (e.key = pipelineArg)) with
    | some m =>
      .ok ⟨some m.key, m.entry.id,
        some ((m.entry.name).getD m.key), m.entry.branch, m.entry.path⟩
    | none => .error ("Unknown pipeline".data ++ pipelineArg)

/-- `RunInfo` from the Azure DevOps service module. -/
structure RunInfo where
  id : JsNum
  state : Option Str := none
  result : Option Str := none
  url : Option Str := none

/-- The error message thrown by `waitForCompletion` on timeout. -/
def timeoutMsg : Str := "Timed out waiting for pipeline run to complete".data

/-- The `waitForCompletion` polling loop, driven by the trace of `getRun`
responses it would receive: each trace element pairs the returned `RunInfo`
with the elapsed wall-clock milliseconds `Date.now() - started` observed at
that iteration's timeout check.  The result triple is the outcome (`none`
when the trace is exhausted before the loop decides), the list of runs passed
to the `onUpdate` observer, and the number of poll-interval sleeps performed.
Per the source, each iteration queries, notifies the observer, returns on
`state == "completed"`, throws when the elapsed time exceeds `timeoutMs`, and
otherwise sleeps once and repeats. -/
def waitForCompletion (timeoutMs : Nat) :
    List (RunInfo × Nat) → Option (Except Str RunInfo) × List RunInfo × Nat
  | [] => (none, [], 0)
  | (run, elapsed) :: rest =>
    if run.state = some "completed".data then (some (.ok run), [run], 0)
    else if timeoutMs < elapsed then (some (.error timeoutMsg), [run], 0)
    else
      let (outcome, observed, sleeps) := waitForCompletion timeoutMs rest
      (outcome, run :: observed, sleeps + 1)

/-- The result of `getPipelineYaml` (service module): possibly-missing YAML
content, its repository path, and the repository type. -/
structure YamlFetchInfo where
  content : Option Str := none
  path : Option Str := none
  repositoryType : Option Str := none

/-- Reading one local YAML candidate as the `build` action does: a read
failure (`readLocalYaml` catches and returns `null`) or empty content
(falsy string) leaves the content unset. -/
def readLocalContent (readLocal : Str → Option Str) (p : Str) : Option Str :=
  match readLocal p with
  | some c => if c = [] then none else some c
  | none => none

/-- The YAML-content resolution of the `build` action (`src/cli.ts`, lines
781-822): try the selection's local path, then the remote definition fetch
(whose thrown error is caught into `yamlError`), then the locator's pick.
Returns `(yamlContent, repositoryType, yamlError)`. -/
def buildYamlContent (selPath : Option Str) (readLocal : Str → Option Str)
    (remote : Except Str YamlFetchInfo) (localPick : Option Str) :
    Option Str × Option Str × Option Str :=
  let fromSel : Option Str :=
    match selPath with
    | some p => readLocalContent readLocal p
    | none => none
  let afterRemote : Option Str × Option Str × Option Str :=
    match fromSel with
    | some c => (some c, none, none)
    | none =>
      match remote with
      | .ok info =>
        (match info.content with
         | some c => if c = [] then none else some c
         | none => none,
         info.repositoryType, none)
      | .error e => (none, none, some e)
  match afterRemote.1 with
  | some c => (some c, afterRemote.2.1, afterRemote.2.2)
  | none =>
    (match localPick with
     | some p => readLocalContent readLocal p
     | none => none,
     afterRemote.2.1, afterRemote.2.2)

/-- The parameter-spec phase of the `build` action (`src/cli.ts`, lines
824-840): when YAML content was found it is fed to `extractParamsFromYaml`,
whose parse failure propagates out of the command's `try` (aborting with exit
code 1); with no content the command merely prints a notice and proceeds with
no specs. -/
def buildParamSpecs (parseDoc : Str → Except Str (Option JsValue)) :
    Option Str → Except Str (List PipelineParamSpec)
  | some content => extractParamsFromYamlE parseDoc content
  | none => .ok []

/-- End-to-end parameter-spec outcome of the `build` action for given
collaborator behaviours: `Except.error` means the command aborts through its
outer `catch`, reporting the error and setting exit code 1. -/
def buildParamsOutcome (selPath : Option Str) (readLocal : Str → Option Str)
    (remote : Except Str YamlFetchInfo) (localPick : Option Str)
    (parseDoc : Str → Except Str (Option JsValue)) :
    Except Str (List PipelineParamSpec) :=
  buildParamSpecs parseDoc (buildYamlContent selPath readLocal remote localPick).1

/-- The value returned by a `@clack/prompts` prompt: either a cancellation
symbol (`isCancel`) or the entered value. -/
inductive PromptResult (α : Type) where
  | cancel
  | value (a : α)

/-- `exitIfCancel` (`src/cli.ts`, lines 98-104): on cancellation print the
`Canceled` outro and terminate the process via `process.exit` with the given
code (`Sum.inl code`); otherwise pass the value through. -/
def exitIfCancel {α : Type} : PromptResult α → Sum Nat α
  | .cancel => .inl 1
  | .value a => .inr a

/-! Record (JS object) lemmas shared by the merge theorems. -/

theorem pmLookup_setkv_self (m : PMap) (k : Str) (v : JsValue) :
    pmLookup (setkv m k v) k = some v := by
  induction m with
  | nil => simp [setkv, pmLookup]
  | cons kv rest ih =>
    obtain ⟨k', v'⟩ := kv
    by_cases h : k' = k
    · simp [setkv, pmLookup, h]
    · simp [setkv, pmLookup, h, ih]

theorem pmLookup_setkv_of_ne (m : PMap) {k k' : Str} (h : k' ≠ k) (v : JsValue) :
    pmLookup (setkv m k v) k' = pmLookup m k' := by
  have h' : ¬ k = k' := fun hh => h hh.symm
  induction m with
  | nil => simp [setkv, pmLookup, h']
  | cons kv rest ih =>
    obtain ⟨k'', v''⟩ := kv
    by_cases hk : k'' = k
    · subst hk
      simp [setkv, pmLookup, h']
    · by_cases hk' : k'' = k'
      · simp [setkv, pmLookup, hk, hk', h]
      · simp [setkv, pmLookup, hk, hk', ih]

theorem mem_pmKeys_setkv (m : PMap) (k : Str) (v : JsValue) (k' : Str) :
    k' ∈ pmKeys (setkv m k v) ↔ k' ∈ pmKeys m ∨ k' = k := by
  induction m with
  | nil => simp [setkv, pmKeys]
  | cons kv rest ih =>
    obtain ⟨k'', v''⟩ := kv
    by_cases hk : k'' = k
    · have hset : setkv ((k'', v'') :: rest) k v = (k'', v) :: rest := by
        simp [setkv, hk]
      rw [hset]
      simp only [pmKeys, List.map_cons, List.mem_cons]
      subst hk
      tauto
    · have hset : setkv ((k'', v'') :: rest) k v = (k'', v'') :: setkv rest k v := by
        simp [setkv, hk]
      rw [hset]
      simp only [pmKeys, List.map_cons, List.mem_cons] at ih ⊢
      rw [ih]
      tauto

theorem pmLookup_eq_none_of_not_mem (m : PMap) (k : Str) (h : k ∉ pmKeys m) :
    pmLookup m k = none := by
  induction m with
  | nil => rfl
  | cons kv rest ih =>
    obtain ⟨k', v'⟩ := kv
    simp only [pmKeys, List.map_cons, List.mem_cons, not_or] at h
    have h1 : ¬ k' = k := fun hh => h.1 hh.symm
    simp [pmLookup, h1, ih h.2]

theorem mem_pmKeys_spreadMerge (a b : PMap) (k : Str) :
    k ∈ pmKeys (spreadMerge a b) ↔ k ∈ pmKeys a ∨ k ∈ pmKeys b := by
  induction b generalizing a with
  | nil => simp [spreadMerge, pmKeys]
  | cons kv rest ih =>
    obtain ⟨k', v'⟩ := kv
    show k ∈ pmKeys (spreadMerge (setkv a k' v') rest) ↔ _
    rw [ih, mem_pmKeys_setkv]
    simp only [pmKeys, List.map_cons, List.mem_cons]
    tauto

theorem pmLookup_spreadMerge (a b : PMap) (k : Str) (hb : (pmKeys b).Nodup) :
    pmLookup (spreadMerge a b) k = firstSome (pmLookup b k) (pmLookup a k) := by
  induction b generalizing a with
  | nil => simp [spreadMerge, pmLookup, firstSome]
  | cons kv rest ih =>
    obtain ⟨k', v'⟩ := kv
    simp only [pmKeys, List.map_cons, List.nodup_cons] at hb
    show pmLookup (spreadMerge (setkv a k' v') rest) k = _
    rw [ih _ hb.2]
    by_cases hk : k = k'
    · subst hk
      have hrest : pmLookup rest k = none :=
        pmLookup_eq_none_of_not_mem rest k hb.1
      simp [pmLookup, hrest, firstSome, pmLookup_setkv_self]
    · have h1 : pmLookup ((k', v') :: rest) k = pmLookup rest k := by
        have : ¬ k' = k := fun hh => hk hh.symm
        simp [pmLookup, this]
      have h2 : pmLookup (setkv a k' v') k = pmLookup a k :=
        pmLookup_setkv_of_ne a hk v'
      rw [h1, h2]

theorem pmLookup_foldl_defaults_of_ne (specs : List PipelineParamSpec) :
    ∀ (m : PMap) (k : Str), (∀ s ∈ specs, s.name ≠ k) →
      pmLookup (specs.foldl defaultsStep m) k = pmLookup m k := by
  induction specs with
  | nil => intro m k _; rfl
  | cons s rest ih =>
    intro m k h
    have hs : s.name ≠ k := h s (List.mem_cons_self s rest)
    have hrest : ∀ s' ∈ rest, s'.name ≠ k :=
      fun s' hs' => h s' (List.mem_cons_of_mem s hs')
    show pmLookup (rest.foldl defaultsStep (defaultsStep m s)) k = _
    rw [ih _ _ hrest]
    unfold defaultsStep
    cases s.default with
    | none => rfl
    | some v => exact pmLookup_setkv_of_ne m (fun hh => hs hh.symm) v

theorem pmLookup_foldl_defaults (specs : List PipelineParamSpec) :
    ∀ (m : PMap) (spec : PipelineParamSpec) (v : JsValue),
      (specs.map (·.name)).Nodup → spec ∈ specs → spec.default = some v →
      pmLookup (specs.foldl defaultsStep m) spec.name = some v := by
  induction specs with
  | nil => intro m spec v _ hmem _; cases hmem
  | cons s rest ih =>
    intro m spec v hnd hmem hdef
    simp only [List.map_cons, List.nodup_cons] at hnd
    rcases List.mem_cons.mp hmem with heq | hmem'
    · subst heq
      have hne : ∀ s' ∈ rest, s'.name ≠ spec.name := by
        intro s' hs' hcontra
        exact hnd.1 (hcontra ▸ List.mem_map_of_mem (·.name) hs')
      show pmLookup (rest.foldl defaultsStep (defaultsStep m spec)) spec.name = _
      rw [pmLookup_foldl_defaults_of_ne rest _ _ hne]
      unfold defaultsStep
      rw [hdef]
      exact pmLookup_setkv_self m spec.name v
    · exact ih (defaultsStep m s) spec v hnd.2 hmem' hdef

/-- Claim C1: for the parameter sources merged by the `build` action — the
base record `parameters` (interactive answers, or `defaultsFromSpecs` when
prompting is skipped; the code never activates both at once), the `--param`
overrides and the ad-hoc flag parameters — the merged record's keys are the
union of the sources' keys; every key's value comes from the
highest-precedence source defining it (flags over overrides over the base
source); and a key defined only as a spec default keeps that default value. -/
theorem c1_merge_precedence :
    (∀ (ps ov fl : PMap) (k : Str),
      k ∈ pmKeys (mergedParams ps ov fl) ↔
        k ∈ pmKeys ps ∨ k ∈ pmKeys ov ∨ k ∈ pmKeys fl)
    ∧ (∀ (ps ov fl : PMap) (k : Str),
        (pmKeys ov).Nodup → (pmKeys fl).Nodup →
        pmLookup (mergedParams ps ov fl) k =
          firstSome (pmLookup fl k) (firstSome (pmLookup ov k) (pmLookup ps k)))
    ∧ (∀ (specs : List PipelineParamSpec) (ov fl : PMap)
        (spec : PipelineParamSpec) (v : JsValue),
        (specs.map (·.name)).Nodup → spec ∈ specs → spec.default = some v →
        (pmKeys ov).Nodup → (pmKeys fl).Nodup →
        pmLookup ov spec.name = none → pmLookup fl spec.name = none →
        pmLookup (mergedParams (defaultsFromSpecs specs) ov fl) spec.name = some v) := by
  refine ⟨?_, ?_, ?_⟩
  · intro ps ov fl k
    unfold mergedParams
    rw [mem_pmKeys_spreadMerge, mem_pmKeys_spreadMerge]
    tauto
  · intro ps ov fl k hov hfl
    unfold mergedParams
    rw [pmLookup_spreadMerge _ _ _ hfl, pmLookup_spreadMerge _ _ _ hov]
  · intro specs ov fl spec v hnd hmem hdef hov hfl hovn hfln
    unfold mergedParams
    rw [pmLookup_spreadMerge _ _ _ hfl, pmLookup_spreadMerge _ _ _ hov,
      hovn, hfln]
    show pmLookup (defaultsFromSpecs specs) spec.name = some v
    exact pmLookup_foldl_defaults specs [] spec v hnd hmem hdef

/-- Witness for C1 at concrete sources: the flag value wins for the shared
key, and the untouched spec default survives. -/
theorem c1_merge_precedence_witness :
    pmLookup
      (mergedParams
        (defaultsFromSpecs
          [⟨"x".data, "number".data, some (.num (jsInt 1)), none⟩,
           ⟨"keep".data, "string".data, some (.str "d".data), none⟩])
        [("x".data, .num (jsInt 2))]
        [("x".data, .num (jsInt 3))]) "x".data = some (.num (jsInt 3)) ∧
    pmLookup
      (mergedParams
        (defaultsFromSpecs
          [⟨"x".data, "number".data, some (.num (jsInt 1)), none⟩,
           ⟨"keep".data, "string".data, some (.str "d".data), none⟩])
        [("x".data, .num (jsInt 2))]
        [("x".data, .num (jsInt 3))]) "keep".data = some (.str "d".data) := by
  constructor
  · have h := c1_merge_precedence.2.1
      (defaultsFromSpecs
        [⟨"x".data, "number".data, some (.num (jsInt 1)), none⟩,
         ⟨"keep".data, "string".data, some (.str "d".data), none⟩])
      [("x".data, .num (jsInt 2))] [("x".data, .num (jsInt 3))] "x".data
      (by decide) (by decide)
    rw [h]
    rfl
  · exact c1_merge_precedence.2.2
      [⟨"x".data, "number".data, some (.num (jsInt 1)), none⟩,
       ⟨"keep".data, "string".data, some (.str "d".data), none⟩]
      [("x".data, .num (jsInt 2))] [("x".data, .num (jsInt 3))]
      ⟨"keep".data, "string".data, some (.str "d".data), none⟩
      (.str "d".data) (by decide)
      (List.mem_cons_of_mem _ (List.mem_cons_self _ _)) rfl
      (by decide) (by decide) rfl rfl

/-- Claim C3: the parameter spec extractor maps the sequence form
`parameters: [{name: "a", type: "boolean", default: true}, "b"]` to exactly
`[{name:"a",type:"boolean",default:true}, {name:"b",type:"string"}]`, maps
the mapping form `parameters: {c: 3}` to exactly
`[{name:"c",type:"number",default:3}]`, and yields the empty list for any
document object with no `parameters` member. -/
theorem c3_param_extraction :
    extractParamsFromDoc (some (.obj [("parameters".data,
        .arr [.obj [("name".data, .str "a".data),
                    ("type".data, .str "boolean".data),
                    ("default".data, .bool true)],
              .str "b".data])])) =
      [⟨"a".data, "boolean".data, some (.bool true), none⟩,
       ⟨"b".data, "string".data, none, none⟩]
    ∧ extractParamsFromDoc (some (.obj [("parameters".data,
        .obj [("c".data, .num (jsInt 3))])])) =
      [⟨"c".data, "number".data, some (.num (jsInt 3)), none⟩]
    ∧ (∀ fields : List (Str × JsValue),
        pmLookup fields "parameters".data = none →
        extractParamsFromDoc (some (.obj fields)) = []) := by
  refine ⟨rfl, rfl, ?_⟩
  intro fields h
  unfold extractParamsFromDoc getField
  simp only [Option.some_bind, h]
  rfl

/-- Witness for C3's universal part at a concrete document with no
`parameters` section. -/
theorem c3_param_extraction_witness :
    extractParamsFromDoc (some (.obj [("trigger".data, .str "none".data)])) = [] :=
  c3_param_extraction.2.2 [("trigger".data, .str "none".data)] rfl

/-- Claim C4: the locator's candidate score is a deterministic function of
its inputs; for pipeline key `android_staging` the candidate
`ci/android-staging.yml` scores exactly `12`, its normalized base name and
normalized path both containing the normalized key (the `8` and `4`
signals), while the unrelated candidate `ci/ios.yml` scores `0` and is
absent from the locator's scored candidate list. -/
theorem c4_locator_scoring :
    (∀ (p p' : Str) (k k' n n' : Option Str), p = p' → k = k' → n = n' →
      scoreYamlCandidate p k n = scoreYamlCandidate p' k' n')
    ∧ scoreYamlCandidate "ci/android-staging.yml".data
        (some "android_staging".data) none = 12
    ∧ containsSub (normalizeForMatch (some (jsToLower
        (basenameNoExt "ci/android-staging.yml".data))))
        (normalizeForMatch (some "android_staging".data)) = true
    ∧ containsSub (normalizeForMatch (some "ci/android-staging.yml".data))
        (normalizeForMatch (some "android_staging".data)) = true
    ∧ scoreYamlCandidate "ci/ios.yml".data (some "android_staging".data) none = 0
    ∧ (scoredCandidates ["ci/android-staging.yml".data, "ci/ios.yml".data]
        (some "android_staging".data) none).all
        (fun item => item.1 ≠ "ci/ios.yml".data) = true := by
  refine ⟨?_, by decide, by decide, by decide, by decide, by decide⟩
  intro p p' k k' n n' hp hk hn
  rw [hp, hk, hn]

/-- Witness for C4's determinism part at the concrete candidate. -/
theorem c4_locator_scoring_witness :
    scoreYamlCandidate "ci/android-staging.yml".data
        (some "android_staging".data) none =
      scoreYamlCandidate "ci/android-staging.yml".data
        (some "android_staging".data) none :=
  c4_locator_scoring.1 _ _ _ _ _ _ rfl rfl rfl

/-- Claim C5: when the three successive `getRun` responses are `queued`,
`inProgress` and `completed` (and the first two timeout checks have not yet
exceeded the deadline, as with the instantaneous mock service), the monitor
reports each response to the observer, returns the third response, and
performs exactly two poll-interval sleeps. -/
theorem c5_completion_monitor (r1 r2 r3 : RunInfo) (t1 t2 t3 timeoutMs : Nat)
    (h1 : r1.state = some "queued".data) (h2 : r2.state = some "inProgress".data)
    (h3 : r3.state = some "completed".data)
    (ht1 : t1 ≤ timeoutMs) (ht2 : t2 ≤ timeoutMs) :
    waitForCompletion timeoutMs [(r1, t1), (r2, t2), (r3, t3)] =
      (some (.ok r3), [r1, r2, r3], 2) := by
  have n1 : ¬ r1.state = some "completed".data := by rw [h1]; decide
  have n2 : ¬ r2.state = some "completed".data := by rw [h2]; decide
  simp [waitForCompletion, n1, n2, h3, Nat.not_lt.mpr ht1, Nat.not_lt.mpr ht2]

/-- Witness for C5 at a concrete three-response trace. -/
theorem c5_completion_monitor_witness :
    waitForCompletion 3600000
      [(⟨jsInt 9, some "queued".data, none, none⟩, 0),
       (⟨jsInt 9, some "inProgress".data, none, none⟩, 7),
       (⟨jsInt 9, some "completed".data, some "succeeded".data, none⟩, 14)] =
      (some (.ok ⟨jsInt 9, some "completed".data, some "succeeded".data, none⟩),
       [⟨jsInt 9, some "queued".data, none, none⟩,
        ⟨jsInt 9, some "inProgress".data, none, none⟩,
        ⟨jsInt 9, some "completed".data, some "succeeded".data, none⟩], 2) :=
  c5_completion_monitor _ _ _ _ _ _ _ rfl rfl rfl (by decide) (by decide)

theorem jsIndexOf_eq_none {c : Char} :
    ∀ {s : Str}, c ∉ s → jsIndexOf c s = none := by
  intro s h
  induction s with
  | nil => rfl
  | cons a s ih =>
    rw [List.mem_cons, not_or] at h
    have ha : ¬ a = c := fun hh => h.1 hh.symm
    simp [jsIndexOf, ha, ih h.2]

/-- Claim C10: a `--param` entry containing no `=` at all is silently
omitted — `parseParams` (a total function, raising no error) returns for any
entry list containing such an entry exactly what it returns with that entry
removed, all remaining entries still processed. -/
theorem c10_params_without_eq_skipped (pre post : List Str) (e : Str)
    (he : '=' ∉ e) :
    parseParams (pre ++ e :: post) = parseParams (pre ++ post) := by
  have hidx : jsIndexOf '=' e = none := jsIndexOf_eq_none he
  unfold parseParams
  have hgo : ∀ (p : List Str) (m : PMap),
      parseParamsGo (p ++ e :: post) m = parseParamsGo (p ++ post) m := by
    intro p
    induction p with
    | nil =>
      intro m
      show parseParamsGo (e :: post) m = _
      simp [parseParamsGo, hidx]
    | cons q p ih =>
      intro m
      show parseParamsGo (q :: (p ++ e :: post)) m = parseParamsGo (q :: (p ++ post)) m
      cases hq : jsIndexOf '=' q with
      | none => simp [parseParamsGo, hq, ih]
      | some idx => simp [parseParamsGo, hq, ih]
  exact hgo pre []

/-- Witness for C10 at a concrete entry list. -/
theorem c10_params_without_eq_skipped_witness :
    parseParams (["a=1".data] ++ "noequals".data :: ["b=x".data]) =
      parseParams (["a=1".data] ++ ["b=x".data]) :=
  c10_params_without_eq_skipped ["a=1".data] ["b=x".data] "noequals".data
    (by decide)

theorem resolveArg_numeric_id (entries : List CatalogEntry) (arg : Str)
    (nmb : JsNum) (s : PipelineSelection) (hn : jsNumber arg = some nmb)
    (hok : resolvePipelineSelectionArg entries arg = .ok s) : s.id = nmb := by
  unfold resolvePipelineSelectionArg at hok
  rw [hn] at hok
  cases hf : entries.find? (fun e => numEq e.entry.id nmb) with
  | none =>
    simp only [hf] at hok
    cases hok
    rfl
  | some m =>
    simp only [hf] at hok
    cases hok
    rfl

/-- Counterexample to C2 as stated: the identifier `"3.5"` parses as the JS
number `35 / 10`, so the selection resolver returns a (bare) selection whose
`id` is not an integer. -/
theorem c2_counterexample :
    resolvePipelineSelectionArg [] "3.5".data =
      .ok ⟨none, ⟨35, 1⟩, none, none, none⟩
    ∧ JsNum.isInt ⟨35, 1⟩ = false :=
  ⟨rfl, by decide⟩

/-- Claim C2 (amended): for every catalog and identifier string that parses
as a JS number, the returned selection's `id` is exactly that number — an
integer only when the parsed number is one, fractional identifiers such as
`"3.5"` yielding a non-integer `id` — and when the number is not present in
the catalog the resolver returns a bare selection whose only populated field
is that `id`. -/
theorem c2_selection_resolver :
    (∀ (entries : List CatalogEntry) (arg : Str) (nmb : JsNum),
      jsNumber arg = some nmb →
      entries.find? (fun e => numEq e.entry.id nmb) = none →
      resolvePipelineSelectionArg entries arg = .ok ⟨none, nmb, none, none, none⟩)
    ∧ (∀ (entries : List CatalogEntry) (arg : Str) (nmb : JsNum)
        (s : PipelineSelection),
        jsNumber arg = some nmb →
        resolvePipelineSelectionArg entries arg = .ok s → s.id = nmb)
    ∧ (∀ (entries : List CatalogEntry) (arg : Str) (nmb : JsNum)
        (s : PipelineSelection),
        jsNumber arg = some nmb → nmb.isInt = true →
        resolvePipelineSelectionArg entries arg = .ok s → s.id.isInt = true) := by
  refine ⟨?_, ?_, ?_⟩
  · intro entries arg nmb hn hf
    unfold resolvePipelineSelectionArg
    rw [hn]
    simp only [hf]
  · exact fun entries arg nmb s hn hok => resolveArg_numeric_id entries arg nmb s hn hok
  · intro entries arg nmb s hn hint hok
    rw [resolveArg_numeric_id entries arg nmb s hn hok]
    exact hint

/-- Witness for C2 (amended) at the numeric identifier `"7"` and an empty
catalog. -/
theorem c2_selection_resolver_witness :
    resolvePipelineSelectionArg [] "7".data =
      .ok ⟨none, jsInt 7, none, none, none⟩ :=
  c2_selection_resolver.1 [] "7".data (jsInt 7) rfl rfl

/-- Counterexample to C6 as stated: with timeout 5ms, a first `queued`
response observed at elapsed time 0 does not time out; when the second
response (after the poll sleep) is `completed`, the monitor returns it
normally instead of failing with a Timeout error. -/
theorem c6_counterexample :
    (⟨jsInt 1, some "queued".data, none, none⟩ : RunInfo).state ≠
      some "completed".data
    ∧ waitForCompletion 5
        [(⟨jsInt 1, some "queued".data, none, none⟩, 0),
         (⟨jsInt 1, some "completed".data, none, none⟩, 12)] =
      (some (.ok ⟨jsInt 1, some "completed".data, none, none⟩),
       [⟨jsInt 1, some "queued".data, none, none⟩,
        ⟨jsInt 1, some "completed".data, none, none⟩], 1) :=
  ⟨by decide, rfl⟩

/-- Claim C6 (amended): with poll interval 10ms and timeout 5ms the monitor
always performs the first `getRun` query (the elapsed check runs only after a
query, so the first response is always observed); when that first query's
state is not `completed` it fails with a Timeout error either immediately
(first elapsed reading above 5ms) or after exactly one poll sleep and a
second query — unless that second query reports `completed`, in which case
its run info is returned normally. -/
theorem c6_timeout_monitor :
    (∀ (timeoutMs : Nat) (r : RunInfo) (t : Nat) (rest : List (RunInfo × Nat)),
      ((waitForCompletion timeoutMs ((r, t) :: rest)).2.1).head? = some r)
    ∧ (∀ (r1 : RunInfo) (t1 : Nat) (rest : List (RunInfo × Nat)),
        r1.state ≠ some "completed".data → 5 < t1 →
        waitForCompletion 5 ((r1, t1) :: rest) =
          (some (.error timeoutMsg), [r1], 0))
    ∧ (∀ (r1 r2 : RunInfo) (t1 t2 : Nat) (rest : List (RunInfo × Nat)),
        r1.state ≠ some "completed".data → t1 ≤ 5 → 5 < t2 →
        waitForCompletion 5 ((r1, t1) :: (r2, t2) :: rest) =
          (if r2.state = some "completed".data
           then (some (.ok r2), [r1, r2], 1)
           else (some (.error timeoutMsg), [r1, r2], 1))) := by
  refine ⟨?_, ?_, ?_⟩
  · intro timeoutMs r t rest
    by_cases hc : r.state = some "completed".data
    · simp [waitForCompletion, hc]
    · by_cases ht : timeoutMs < t
      · simp [waitForCompletion, hc, ht]
      · simp [waitForCompletion, hc, ht]
  · intro r1 t1 rest h1 ht
    simp [waitForCompletion, h1, ht]
  · intro r1 r2 t1 t2 rest h1 ht1 ht2
    by_cases hc : r2.state = some "completed".data
    · simp [waitForCompletion, h1, hc, Nat.not_lt.mpr ht1]
    · simp [waitForCompletion, h1, hc, Nat.not_lt.mpr ht1, ht2]

/-- Witness for C6 (amended): a first non-completed response whose elapsed
reading already exceeds the 5ms timeout fails with the Timeout error. -/
theorem c6_timeout_monitor_witness :
    waitForCompletion 5 [(⟨jsInt 1, some "queued".data, none, none⟩, 6)] =
      (some (.error timeoutMsg), [⟨jsInt 1, some "queued".data, none, none⟩], 0) :=
  c6_timeout_monitor.2.1 ⟨jsInt 1, some "queued".data, none, none⟩ 6 []
    (by decide) (by decide)

/-- Counterexample to C7 as stated: a local definition file that reads
successfully but fails to parse is fatal — `extractParamsFromYaml`'s parse
error propagates out of the command's `try`, aborting with exit code 1 — even
though the remote definition lookup was available to degrade to. -/
theorem c7_counterexample :
    buildParamsOutcome (some "azure-pipelines.yml".data)
      (fun _ => some "a: [".data)
      (.ok ⟨some "trigger: none".data, some "azure-pipelines.yml".data,
        some "azureReposGit".data⟩)
      none
      (fun _ => .error "bad yaml".data) =
      .error "bad yaml".data := rfl

/-- Claim C7 (amended): a failure to *read* the local pipeline definition
file is non-fatal — the build command behaves exactly as if no local path
were configured, degrading to the remote lookup and then the locator
fallback, and when those are unavailable too it proceeds with no parameter
specs rather than aborting; a failure to *parse* successfully-read YAML
content, by contrast, aborts the command with an error exit code. -/
theorem c7_local_read_failure_nonfatal :
    (∀ (p : Str) (readLocal : Str → Option Str)
      (remote : Except Str YamlFetchInfo) (localPick : Option Str)
      (parseDoc : Str → Except Str (Option JsValue)),
      readLocal p = none →
      buildParamsOutcome (some p) readLocal remote localPick parseDoc =
        buildParamsOutcome none readLocal remote localPick parseDoc)
    ∧ (∀ (p : Str) (readLocal : Str → Option Str) (e : Str)
        (parseDoc : Str → Except Str (Option JsValue)),
        readLocal p = none →
        buildParamsOutcome (some p) readLocal (.error e) none parseDoc = .ok []) := by
  constructor
  · intro p readLocal remote localPick parseDoc h
    simp [buildParamsOutcome, buildYamlContent, readLocalContent, h]
  · intro p readLocal e parseDoc h
    simp [buildParamsOutcome, buildYamlContent, readLocalContent, h,
      buildParamSpecs]

/-- Witness for C7 (amended): with the local read failing, the remote
erroring and no locator pick, the command still proceeds with no specs. -/
theorem c7_local_read_failure_nonfatal_witness :
    buildParamsOutcome (some "ci.yml".data) (fun _ => none)
      (.error "AzDO API error 404".data) none (fun _ => .ok none) = .ok [] :=
  c7_local_read_failure_nonfatal.2 "ci.yml".data (fun _ => none)
    "AzDO API error 404".data (fun _ => .ok none) rfl

/-- Counterexample to C8 as stated: cancelling a prompt terminates the
process with exit code 1, which is not the success code 0 the claim
asserts. -/
theorem c8_counterexample :
    exitIfCancel (PromptResult.cancel : PromptResult Nat) = .inl 1 ∧
      (1 : Nat) ≠ 0 :=
  ⟨rfl, by decide⟩

/-- Claim C8 (amended): whenever the user cancels an interactive prompt the
entire invocation aborts immediately via `process.exit`, but with the error
exit code 1 rather than the success code 0; a non-cancelled prompt value is
passed through unchanged. -/
theorem c8_cancel_exits_with_error_code :
    (∀ (α : Type), exitIfCancel (PromptResult.cancel : PromptResult α) = .inl 1)
    ∧ (∀ (α : Type) (a : α), exitIfCancel (PromptResult.value a) = .inr a) :=
  ⟨fun _ => rfl, fun _ _ => rfl⟩

theorem jsIndexOf_append_self (k v : Str) (c : Char) (h : c ∉ k) :
    jsIndexOf c (k ++ c :: v) = some k.length := by
  induction k with
  | nil => simp [jsIndexOf]
  | cons a k ih =>
    rw [List.mem_cons, not_or] at h
    have ha : ¬ a = c := fun hh => h.1 hh.symm
    simp [jsIndexOf, ha, ih h.2]

theorem drop_append_cons_length (k : Str) (c : Char) (v : Str) :
    (k ++ c :: v).drop (k.length + 1) = v := by
  induction k with
  | nil => simp
  | cons a k ih => simp [ih]

theorem pufStep_eq_form (k v : Str) (next? : Option Str) (hk : k ≠ [])
    (he : '=' ∉ k)
    (hno : strStartsWith ('-' :: '-' :: (k ++ '=' :: v)) "--no-".data = false) :
    pufStep ('-' :: '-' :: (k ++ '=' :: v)) next? =
      (some (k, parseParamValue v), false) := by
  have hidx : jsIndexOf '=' ('-' :: '-' :: (k ++ '=' :: v)) =
      some (k.length + 1 + 1) := by
    simp [jsIndexOf, jsIndexOf_append_self k v '=' he]
  have hsw : strStartsWith ('-' :: '-' :: (k ++ '=' :: v)) "--".data = true := by
    simp [strStartsWith]
  have htake : (('-' : Char) :: '-' :: (k ++ '=' :: v)).take (k.length + 1 + 1) =
      '-' :: '-' :: k := by
    simp [List.take_succ_cons]
  have hdrop : (('-' : Char) :: '-' :: (k ++ '=' :: v)).drop (k.length + 1 + 1 + 1) = v := by
    simp only [List.drop_succ_cons]
    exact drop_append_cons_length k '=' v
  have hne2 : ¬ ('-' :: '-' :: (k ++ '=' :: v) : Str) = "--".data := by
    intro hh
    have h0 : (k ++ '=' :: v : Str) = [] := by
      simp at hh
    simp at h0
  unfold pufStep
  rw [if_neg (by simp), if_neg hne2, hno]
  simp only [Bool.false_eq_true, if_false]
  rw [if_pos hsw, hidx]
  simp only [htake, hdrop]
  simp [hk]

theorem pufStep_no_form (k : Str) (next? : Option Str) (hk : k ≠ []) :
    pufStep ('-' :: '-' :: 'n' :: 'o' :: '-' :: k) next? =
      (some (k, .bool false), false) := by
  have hsw : strStartsWith ('-' :: '-' :: 'n' :: 'o' :: '-' :: k) "--no-".data = true := by
    simp [strStartsWith]
  unfold pufStep
  rw [if_neg (by simp), if_neg (by simp), if_pos hsw]
  simp [hk]

theorem pufStep_bare_form (k : Str) (next? : Option Str) (hk : k ≠ [])
    (he : '=' ∉ k)
    (hno : strStartsWith ('-' :: '-' :: k) "--no-".data = false) :
    pufStep ('-' :: '-' :: k) next? =
      (match next? with
       | some next =>
         if next ≠ [] ∧ (strStartsWith next "-".data = false ∨ startsMinusDigit next = true)
         then (some (k, parseParamValue next), true)
         else (some (k, .bool true), false)
       | none => (some (k, .bool true), false)) := by
  have hidx : jsIndexOf '=' ('-' :: '-' :: k) = none := by
    have hmem : ('=' : Char) ∉ ('-' :: '-' :: k : Str) := by
      simp [he]
    exact jsIndexOf_eq_none hmem
  have hsw : strStartsWith ('-' :: '-' :: k) "--".data = true := by
    simp [strStartsWith]
  have hne2 : ¬ ('-' :: '-' :: k : Str) = "--".data := by
    simp [hk]
  unfold pufStep
  rw [if_neg (by simp), if_neg hne2, hno]
  simp only [Bool.false_eq_true, if_false]
  rw [if_pos hsw, hidx]
  simp [hk]

/-- Claim C9: the ad-hoc flag parser maps each `--name=value` token and each
`--name value` token pair to `name ↦ value` with the literal coercion of
`parseParamValue`, maps `--no-name` to `name ↦ false`, and maps a bare
`--name` whose following token is absent, empty, or flag-like (starting with
`-` but not with a minus followed by a digit — that one is taken as the
value) to `name ↦ true`; stated over the parser loop `pufGo` at an arbitrary
accumulated record, with `parseUnknownParamFlags` being that loop started
empty.  (Names starting with `no-` or containing `=` are carved out, since
the `--no-` and `=` rules take precedence over their plain-flag reading.) -/
theorem c9_flag_parsing :
    (∀ args : List Str, parseUnknownParamFlags args = pufGo args [])
    ∧ (∀ (k v : Str) (rest : List Str) (m : PMap), k ≠ [] → '=' ∉ k →
        strStartsWith ('-' :: '-' :: (k ++ '=' :: v)) "--no-".data = false →
        pufGo (('-' :: '-' :: (k ++ '=' :: v)) :: rest) m =
          pufGo rest (setkv m k (parseParamValue v)))
    ∧ (∀ (k : Str) (rest : List Str) (m : PMap), k ≠ [] →
        pufGo (('-' :: '-' :: 'n' :: 'o' :: '-' :: k) :: rest) m =
          pufGo rest (setkv m k (.bool false)))
    ∧ (∀ (k next : Str) (rest : List Str) (m : PMap), k ≠ [] → '=' ∉ k →
        strStartsWith ('-' :: '-' :: k) "--no-".data = false →
        next ≠ [] →
        (strStartsWith next "-".data = false ∨ startsMinusDigit next = true) →
        pufGo (('-' :: '-' :: k) :: next :: rest) m =
          pufGo rest (setkv m k (parseParamValue next)))
    ∧ (∀ (k next : Str) (rest : List Str) (m : PMap), k ≠ [] → '=' ∉ k →
        strStartsWith ('-' :: '-' :: k) "--no-".data = false →
        (next = [] ∨ (strStartsWith next "-".data = true ∧ startsMinusDigit next = false)) →
        pufGo (('-' :: '-' :: k) :: next :: rest) m =
          pufGo (next :: rest) (setkv m k (.bool true)))
    ∧ (∀ (k : Str) (m : PMap), k ≠ [] → '=' ∉ k →
        strStartsWith ('-' :: '-' :: k) "--no-".data = false →
        pufGo [('-' :: '-' :: k)] m = setkv m k (.bool true)) := by
  refine ⟨fun _ => rfl, ?_, ?_, ?_, ?_, ?_⟩
  · intro k v rest m hk he hno
    cases rest with
    | nil => simp [pufGo, pufStep_eq_form k v none hk he hno, applyUpd]
    | cons next r2 =>
      simp [pufGo, pufStep_eq_form k v (some next) hk he hno, applyUpd]
  · intro k rest m hk
    cases rest with
    | nil => simp [pufGo, pufStep_no_form k none hk, applyUpd]
    | cons next r2 =>
      simp [pufGo, pufStep_no_form k (some next) hk, applyUpd]
  · intro k next rest m hk he hno hne hval
    have hstep : pufStep ('-' :: '-' :: k) (some next) =
        (some (k, parseParamValue next), true) := by
      rw [pufStep_bare_form k (some next) hk he hno]
      simp only [if_pos (And.intro hne hval)]
    simp [pufGo, hstep, applyUpd]
  · intro k next rest m hk he hno hval
    have hcond : ¬ (next ≠ [] ∧
        (strStartsWith next "-".data = false ∨ startsMinusDigit next = true)) := by
      rcases hval with h0 | ⟨h1, h2⟩
      · exact fun hc => hc.1 h0
      · rintro ⟨-, h3 | h3⟩
        · rw [h1] at h3; cases h3
        · rw [h2] at h3; cases h3
    have hstep : pufStep ('-' :: '-' :: k) (some next) =
        (some (k, .bool true), false) := by
      rw [pufStep_bare_form k (some next) hk he hno]
      simp only [if_neg hcond]
    simp [pufGo, hstep, applyUpd]
  · intro k m hk he hno
    have hstep : pufStep ('-' :: '-' :: k) none = (some (k, .bool true), false) := by
      rw [pufStep_bare_form k none hk he hno]
    simp [pufGo, hstep, applyUpd]

/-- Witness for C9 at a concrete argument list: a `--name value` pair feeds
the coerced value through. -/
theorem c9_flag_parsing_witness :
    pufGo (('-' :: '-' :: "versionCode".data) :: "123".data :: []) [] =
      pufGo [] (setkv [] "versionCode".data (parseParamValue "123".data)) :=
  c9_flag_parsing.2.2.2.1 "versionCode".data "123".data [] [] (by decide)
    (by decide) (by decide) (by decide) (Or.inl (by decide))

end AzdoCli
